import Mathlib

/-!
Verification of the file-based job queue of the `contabotts` repository.

The queue engine (`src/file_server.py`, mirrored by
`src/local_video_worker.py`) stores one JSON file per job in one of four
directories (`pending/`, `processing/`, `completed/`, `failed/`).  We model
each directory as an association list from filename stem to file content:
`pending/`, `completed/` and `failed/` are keyed by the job id, while
`processing/` is keyed by the `(worker_id, job_id)` pair encoded in the
filename `{worker_id}_{job_id}.json`.

A job document is a JSON object; the engine reads and writes a fixed set of
reserved keys (`job_id`, `status`, `priority`, `created_at`, ...) and treats
everything else as an opaque payload.  We model the document as a record of
optional reserved fields (absent key = `none`, matching Python's
`dict.get` / `del` semantics) plus an opaque payload component.
-/

/-- A job document: the reserved JSON fields the queue engine touches,
each optional (`none` = key absent from the JSON object), plus the
producer-specific payload which the engine never inspects. -/
structure JobDoc where
  job_id : Option String := none
  status : Option String := none
  priority : Option Int := none
  created_at : Option String := none
  processing_started_at : Option String := none
  completed_at : Option String := none
  last_failed_at : Option String := none
  status_updated_at : Option String := none
  retry_count : Option Int := none
  worker_id : Option String := none
  error_message : Option String := none
  gofile_link : Option String := none
  payload : List (String × String) := []
deriving DecidableEq, Repr

/-- Contents of one file in a queue directory: either a JSON document that
parses to a job, or bytes that `json.load` rejects. -/
inductive FileContent where
  | valid (doc : JobDoc)
  | corrupt
deriving DecidableEq, Repr

def FileContent.isValid : FileContent → Bool
  | .valid _ => true
  | .corrupt => false

/-- Write file `k` with content `v` (Python `open(k, "w")` + `json.dump`):
overwrites any existing file of that name. -/
def fsWrite {κ : Type} [DecidableEq κ] (k : κ) (v : FileContent)
    (dir : List (κ × FileContent)) : List (κ × FileContent) :=
  (k, v) :: dir.filter (fun e => e.1 ≠ k)

/-- Delete file `k` (Python `Path.unlink` / `os.remove`). -/
def fsUnlink {κ : Type} [DecidableEq κ] (k : κ)
    (dir : List (κ × FileContent)) : List (κ × FileContent) :=
  dir.filter (fun e => e.1 ≠ k)

/-- Read file `k` if it exists (`Path.exists` + `open(k)`). -/
def fsLookup {κ : Type} [DecidableEq κ] (k : κ)
    (dir : List (κ × FileContent)) : Option FileContent :=
  match dir.find? (fun e => e.1 = k) with
  | some e => some e.2
  | none => none

/-- The directory tree of one queue
(`{base}/{type}-queue/{pending,processing,completed,failed}`). -/
structure QState where
  pending : List (String × FileContent) := []
  processing : List ((String × String) × FileContent) := []
  completed : List (String × FileContent) := []
  failed : List (String × FileContent) := []
deriving DecidableEq, Repr

/-- Response of `POST /queue/{type}/jobs`. -/
structure CreateResp where
  success : Bool
  job_id : String
  status : String
deriving DecidableEq, Repr

/-- `create_job` (file_server.py:450-482).  `fresh` stands for the
`str(uuid.uuid4())` value drawn when the caller supplied no `job_id`;
`now` for `datetime.now().isoformat()`. -/
def create_job (fresh now : String) (job : JobDoc) (st : QState) :
    QState × CreateResp :=
  let job_id := job.job_id.getD fresh
  let doc := { job with
    job_id := some job_id
    created_at := some now
    retry_count := some (job.retry_count.getD 0) }
  ({ st with pending := fsWrite job_id (.valid doc) st.pending },
   { success := true, job_id := job_id, status := "pending" })

/-- Lexicographic order on strings via their character lists — Python's
`str` comparison (`<`/`<=` on code points). -/
def strLe (a b : String) : Prop := a.data ≤ b.data

instance : DecidableRel strLe := fun a b => by
  unfold strLe; infer_instance

/-- The sort key order of `claim_job`
(`key=lambda x: (-x[1].get("priority", 0), x[1].get("created_at", ""))`,
list ascending): priority descending, then `created_at` ascending. -/
def jobLE (a b : String × JobDoc) : Prop :=
  a.2.priority.getD 0 > b.2.priority.getD 0 ∨
    (a.2.priority.getD 0 = b.2.priority.getD 0 ∧
      strLe (a.2.created_at.getD "") (b.2.created_at.getD ""))

instance : DecidableRel jobLE := fun a b => by
  unfold jobLE; infer_instance

/-- The fields added to a job document when a worker claims it
(file_server.py:535-536). -/
def withWorker (wid now : String) (d : JobDoc) : JobDoc :=
  { d with worker_id := some wid, processing_started_at := some now }

/-- The claim loop (file_server.py:524-549): walk the sorted candidates;
for each, attempt the atomic `os.rename` from `pending/{name}` to
`processing/{worker_id}_{name}` — which raises `FileNotFoundError` exactly
when the source file no longer exists — then rewrite the moved file with
the worker fields added.  On `FileNotFoundError` (or any error) continue
with the next candidate. -/
def claimLoop (wid now : String) (st : QState) :
    List (String × JobDoc) → QState × Option JobDoc
  | [] => (st, none)
  | (k, d) :: rest =>
    if (fsLookup k st.pending).isSome then
      let d' := withWorker wid now d
      ({ st with
          pending := fsUnlink k st.pending
          processing := fsWrite (wid, k) (.valid d') st.processing },
       some d')
    else claimLoop wid now st rest

/-- `claim_job` (file_server.py:485-551): list `pending/*.json`, parse each
(skipping unparseable files), sort by `(-priority, created_at)` with
Python's stable sort, then run the claim loop. -/
def claim_job (wid now : String) (st : QState) : QState × Option JobDoc :=
  let pending_files := st.pending
  if pending_files = [] then (st, none)
  else
    let jobs_with_files := pending_files.filterMap (fun e =>
      match e.2 with
      | .valid d => some (e.1, d)
      | .corrupt => none)
    let sorted := List.insertionSort jobLE jobs_with_files
    claimLoop wid now st sorted

/-- `complete_job` (file_server.py:554-601).  Returns `false` for the HTTP
404 raised when `processing/{worker_id}_{job_id}.json` is absent (and for
the exception escaping `json.load` on a corrupt file; either way the
directories are untouched).  Note `if request.gofile_link:` is Python
truthiness: `None` and `""` both leave the field alone. -/
def complete_job (wid jid : String) (gofile_link : Option String)
    (now : String) (st : QState) : QState × Bool :=
  match fsLookup (wid, jid) st.processing with
  | none => (st, false)
  | some .corrupt => (st, false)
  | some (.valid d) =>
    let d1 := { d with
      completed_at := some now
      gofile_link :=
        match gofile_link with
        | some l => if l = "" then d.gofile_link else some l
        | none => d.gofile_link
      status := some "completed" }
    ({ st with
        completed := fsWrite jid (.valid d1) st.completed
        processing := fsUnlink (wid, jid) st.processing },
     true)

/-- `fail_job` (file_server.py:604-669).  On success returns the
`(status, retry_count)` pair of the response body; `none` models the HTTP
404 (processing file absent) and the exception on a corrupt file, both of
which leave the directories untouched. -/
def fail_job (wid jid error_message now : String) (st : QState) :
    QState × Option (String × Int) :=
  match fsLookup (wid, jid) st.processing with
  | none => (st, none)
  | some .corrupt => (st, none)
  | some (.valid d) =>
    let rc := d.retry_count.getD 0 + 1
    let d1 := { d with
      retry_count := some rc
      error_message := some error_message
      last_failed_at := some now }
    if rc ≥ 3 then
      let d2 := { d1 with status := some "failed" }
      ({ st with
          failed := fsWrite jid (.valid d2) st.failed
          processing := fsUnlink (wid, jid) st.processing },
       some ("failed", rc))
    else
      let d2 := { d1 with
        status := some "pending"
        worker_id := none
        processing_started_at := none }
      ({ st with
          pending := fsWrite jid (.valid d2) st.pending
          processing := fsUnlink (wid, jid) st.processing },
       some ("pending", rc))

/-- Where `update_job_status` found the job (file_server.py:696-713). -/
inductive SrcLoc where
  | pending (k : String)
  | processing (k : String × String)
  | completed (k : String)
  | failed (k : String)
deriving DecidableEq, Repr

/-- The folder scan of `update_job_status` (file_server.py:701-713).
`paths.items()` iterates in insertion order `pending, processing,
completed, failed`; the direct check `processing/{job_id}.json` can never
hit (the engine only ever creates worker-prefixed names there).  The
`break` inside the glob loop exits only the inner loop, so a glob hit in
`processing/` is overridden by a later direct hit in `completed/` or
`failed/`; effective priority: pending, completed, failed, processing. -/
def findSource (jid : String) (st : QState) : Option SrcLoc :=
  if (fsLookup jid st.pending).isSome then some (.pending jid)
  else
    let globHit := st.processing.find? (fun e => e.1.2 = jid)
    if (fsLookup jid st.completed).isSome then some (.completed jid)
    else if (fsLookup jid st.failed).isSome then some (.failed jid)
    else
      match globHit with
      | some e => some (.processing e.1)
      | none => none

def readSource (st : QState) : SrcLoc → Option FileContent
  | .pending k => fsLookup k st.pending
  | .processing k => fsLookup k st.processing
  | .completed k => fsLookup k st.completed
  | .failed k => fsLookup k st.failed

def unlinkSource (st : QState) : SrcLoc → QState
  | .pending k => { st with pending := fsUnlink k st.pending }
  | .processing k => { st with processing := fsUnlink k st.processing }
  | .completed k => { st with completed := fsUnlink k st.completed }
  | .failed k => { st with failed := fsUnlink k st.failed }

/-- `update_job_status` (file_server.py:672-751): move a job found in any
folder to the folder named by `new_status` (one of `pending`, `completed`,
`failed`; anything else → 400).  Moving to `pending` resets `retry_count`
to 0 and strips `error_message`, `worker_id` and `processing_started_at`.
The destination is written before the source is unlinked.  On success
returns `(old_status, new_status)`; `none` models the 400/404/500 error
responses, all of which leave the directories untouched. -/
def update_job_status (jid new_status now : String) (st : QState) :
    QState × Option (String × String) :=
  if new_status ≠ "pending" ∧ new_status ≠ "completed" ∧ new_status ≠ "failed"
  then (st, none)
  else
    match findSource jid st with
    | none => (st, none)
    | some loc =>
      match readSource st loc with
      | none => (st, none)
      | some .corrupt => (st, none)
      | some (.valid d) =>
        let d1 := { d with
          status := some new_status
          status_updated_at := some now }
        let d2 :=
          if new_status = "pending" then
            { d1 with
              retry_count := some 0
              error_message := none
              worker_id := none
              processing_started_at := none }
          else d1
        let stW :=
          if new_status = "pending" then
            { st with pending := fsWrite jid (.valid d2) st.pending }
          else if new_status = "completed" then
            { st with completed := fsWrite jid (.valid d2) st.completed }
          else
            { st with failed := fsWrite jid (.valid d2) st.failed }
        let oldStatus :=
          match loc with
          | .pending _ => "pending"
          | .processing _ => "processing"
          | .completed _ => "completed"
          | .failed _ => "failed"
        (unlinkSource stW loc, some (oldStatus, new_status))

/-!  Micro-step decomposition: each queue operation is a sequence of
primitive filesystem actions, each of which is individually atomic; the
states after each prefix of the sequence are the observable instants. -/

/-- One primitive filesystem action of the queue engine. -/
inductive FsAct where
  | wPend (k : String) (v : FileContent)
  | wProc (k : String × String) (v : FileContent)
  | wComp (k : String) (v : FileContent)
  | wFail (k : String) (v : FileContent)
  | uPend (k : String)
  | uProc (k : String × String)
  | uComp (k : String)
  | uFail (k : String)
  | renamePP (k : String) (wid : String)
deriving DecidableEq, Repr

def applyAct (st : QState) : FsAct → QState
  | .wPend k v => { st with pending := fsWrite k v st.pending }
  | .wProc k v => { st with processing := fsWrite k v st.processing }
  | .wComp k v => { st with completed := fsWrite k v st.completed }
  | .wFail k v => { st with failed := fsWrite k v st.failed }
  | .uPend k => { st with pending := fsUnlink k st.pending }
  | .uProc k => { st with processing := fsUnlink k st.processing }
  | .uComp k => { st with completed := fsUnlink k st.completed }
  | .uFail k => { st with failed := fsUnlink k st.failed }
  | .renamePP k wid =>
    match fsLookup k st.pending with
    | some v =>
      { st with
          pending := fsUnlink k st.pending
          processing := fsWrite (wid, k) v st.processing }
    | none => st

def applyActs (st : QState) (acts : List FsAct) : QState :=
  acts.foldl applyAct st

/-- `create_job` as its single filesystem action (one `open(.., "w")` into
`pending/`). -/
def createTrace (fresh now : String) (job : JobDoc) : List FsAct :=
  let job_id := job.job_id.getD fresh
  let doc := { job with
    job_id := some job_id
    created_at := some now
    retry_count := some (job.retry_count.getD 0) }
  [.wPend job_id (.valid doc)]

/-- The two filesystem actions of a successful uncontended claim of the
pending file `k` holding `d` (file_server.py:527-539): the atomic
`os.rename` into `processing/`, then the in-place rewrite adding the
worker fields. -/
def claimTrace (wid now k : String) (d : JobDoc) : List FsAct :=
  [.renamePP k wid, .wProc (wid, k) (.valid (withWorker wid now d))]

/-- The two filesystem actions of `complete_job` (file_server.py:595-599):
write `completed/{job_id}.json`, then unlink the processing file. -/
def completeTrace (wid jid : String) (gofile_link : Option String)
    (now : String) (st : QState) : List FsAct :=
  match fsLookup (wid, jid) st.processing with
  | some (.valid d) =>
    let d1 := { d with
      completed_at := some now
      gofile_link :=
        match gofile_link with
        | some l => if l = "" then d.gofile_link else some l
        | none => d.gofile_link
      status := some "completed" }
    [.wComp jid (.valid d1), .uProc (wid, jid)]
  | _ => []

/-- The two filesystem actions of `fail_job` (file_server.py:658-662):
write the destination (`failed/` or `pending/`), then unlink the
processing file. -/
def failTrace (wid jid error_message now : String) (st : QState) :
    List FsAct :=
  match fsLookup (wid, jid) st.processing with
  | some (.valid d) =>
    let rc := d.retry_count.getD 0 + 1
    let d1 := { d with
      retry_count := some rc
      error_message := some error_message
      last_failed_at := some now }
    if rc ≥ 3 then
      [.wFail jid (.valid { d1 with status := some "failed" }),
       .uProc (wid, jid)]
    else
      [.wPend jid (.valid { d1 with
          status := some "pending"
          worker_id := none
          processing_started_at := none }),
       .uProc (wid, jid)]
  | _ => []

/-- Job `J` has a file in `pending/` (named `{J}.json`). -/
def inPending (st : QState) (J : String) : Bool :=
  st.pending.any (fun e => e.1 = J)

/-- Job `J` has a file in `processing/` (named `{w}_{J}.json` for some worker). -/
def inProcessing (st : QState) (J : String) : Bool :=
  st.processing.any (fun e => e.1.2 = J)

def inCompleted (st : QState) (J : String) : Bool :=
  st.completed.any (fun e => e.1 = J)

def inFailed (st : QState) (J : String) : Bool :=
  st.failed.any (fun e => e.1 = J)

/-- In how many of the four directories job `J` currently has a file. -/
def locCount (st : QState) (J : String) : Nat :=
  (if inPending st J then 1 else 0) + (if inProcessing st J then 1 else 0) +
    (if inCompleted st J then 1 else 0) + (if inFailed st J then 1 else 0)

/-!  Concurrent-claim race model.  `N` workers run `claim_job` against the
same pending set; each worker holds its own sorted candidate snapshot and
iterates it, attempting for each candidate the atomic
`os.rename(pending/{name}, processing/{wid}_{name})`.  The rename is the
only shared-state step: it succeeds iff the source file still exists, and
raises `FileNotFoundError` (worker silently moves to the next candidate)
otherwise.  A scheduler interleaves these attempts arbitrarily. -/

/-- One claiming worker: its id, the candidates it has not yet tried, and
the job it returned (`some j` once its rename of `j` succeeded). -/
structure RWorker where
  wid : String
  cands : List String
  result : Option String
deriving DecidableEq, Repr

/-- One rename attempt by one worker against the shared pending set. -/
def raceAttempt (p : List String) (w : RWorker) : List String × RWorker :=
  match w.result with
  | some _ => (p, w)
  | none =>
    match w.cands with
    | [] => (p, w)
    | c :: rest =>
      if c ∈ p then (p.filter (fun x => x ≠ c), { w with result := some c })
      else (p, { w with cands := rest })

/-- Let worker `i` perform its next rename attempt. -/
def raceStep : List String → List RWorker → Nat → List String × List RWorker
  | p, [], _ => (p, [])
  | p, w :: ws, 0 => let r := raceAttempt p w; (r.1, r.2 :: ws)
  | p, w :: ws, n + 1 => let r := raceStep p ws n; (r.1, w :: r.2)

/-- Run a schedule (list of worker indices) over the shared pending set. -/
def raceRun : List String → List RWorker → List Nat → List String × List RWorker
  | p, ws, [] => (p, ws)
  | p, ws, i :: sched => let r := raceStep p ws i; raceRun r.1 r.2 sched

/-- The jobs the workers have been returned so far. -/
def claimedJobs (ws : List RWorker) : List String :=
  ws.filterMap (fun w => w.result)

/-!  Path model for the HTTP facade (`safe_path`, `delete_file`).  Paths
are strings; all character-level work is done on `String.data`. -/

/-- Python `str.split("/")` on the character list: splits on every `'/'`,
keeping empty components. -/
def splitSlash : List Char → List (List Char)
  | [] => [[]]
  | c :: rest =>
    match splitSlash rest with
    | [] => [[]]
    | comp :: comps =>
      if c = '/' then [] :: comp :: comps else (c :: comp) :: comps

/-- The component-processing step of `posixpath.normpath`: skip empty and
`"."` components; append a component unless it is a `".."` that cancels a
previous real component. -/
def normStep (slashes : Nat) (acc : List (List Char)) (comp : List Char) :
    List (List Char) :=
  if comp = [] ∨ comp = ['.'] then acc
  else if comp ≠ ['.', '.'] ∨ (slashes = 0 ∧ acc = []) ∨
      (acc ≠ [] ∧ acc.getLast? = some ['.', '.']) then
    acc ++ [comp]
  else if acc ≠ [] then acc.dropLast
  else acc

/-- `os.path.normpath` for POSIX paths (`posixpath.normpath`): collapse
slashes, drop `"."`, resolve `".."` purely lexically. -/
def normpath (p : String) : String :=
  if p = "" then "."
  else
    let d := p.data
    let slashes : Nat :=
      if d.take 1 = ['/'] then
        if d.take 2 = ['/', '/'] ∧ ¬ d.take 3 = ['/', '/', '/'] then 2 else 1
      else 0
    let newComps := (splitSlash d).foldl (normStep slashes) []
    let res := List.replicate slashes '/' ++ List.intercalate ['/'] newComps
    if res = [] then "." else ⟨res⟩

/-- `os.path.join(a, b)` for POSIX when `b` is relative (the general rule:
an absolute `b` replaces `a`; otherwise join with a single slash). -/
def pyJoin (a b : String) : String :=
  if b.data.take 1 = ['/'] then b
  else if a = "" ∨ a.data.getLast? = some '/' then a ++ b
  else a ++ "/" ++ b

/-- `safe_path` (file_server.py:95-105): strip leading slashes, join onto
the base directory, normalize, and reject with HTTP 403 (`.error ()`)
unless the result string starts with the base-path string. -/
def safe_path (base path : String) : Except Unit String :=
  let clean_path : String := ⟨path.data.dropWhile (fun c => c = '/')⟩
  let full_path := normpath (pyJoin base clean_path)
  if base.data.isPrefixOf full_path.data then .ok full_path
  else .error ()

/-- The spec's notion of the resolved path lying inside the configured
base directory: it is the base itself or strictly below it (a `base/`
prefixed path).  Modelled from the spec's words, for comparison with what
`safe_path` actually checks. -/
def insideBase (base p : String) : Bool :=
  p = base || (base ++ "/").data.isPrefixOf p.data

/-!  The blob store behind `GET/POST/DELETE /files/{path}` is modelled as
the list of absolute paths of the regular files that exist; a directory
exists iff some file lies strictly under it. -/

def fsFileExists (fs : List String) (p : String) : Bool :=
  fs.any (fun f => f = p)

def fsDirExists (fs : List String) (p : String) : Bool :=
  fs.any (fun f => (p ++ "/").data.isPrefixOf f.data)

/-- `os.path.exists`. -/
def fsPathExists (fs : List String) (p : String) : Bool :=
  fsFileExists fs p || fsDirExists fs p

/-- Response of `DELETE /files/{path}`: a `{"success": true, ...}` JSON
body (with its optional `message`/`path` fields), or the HTTP 403 raised
by `safe_path`. -/
inductive DeleteResp where
  | ok (message : Option String) (path : Option String)
  | denied
deriving DecidableEq, Repr

/-- `delete_file` (file_server.py:199-228), after a valid API key: sanitize
the path; if the target does not exist answer success with
"File already deleted"; otherwise remove the file (or the subtree for a
directory) and answer success with the request path. -/
def delete_file (base : String) (fs : List String) (path : String) :
    List String × DeleteResp :=
  match safe_path base path with
  | .error _ => (fs, .denied)
  | .ok fp =>
    if ¬ fsPathExists fs fp then
      (fs, .ok (some "File already deleted") none)
    else if fsFileExists fs fp then
      (fs.filter (fun f => f ≠ fp), .ok none (some path))
    else if fsDirExists fs fp then
      (fs.filter (fun f => ¬ (fp ++ "/").data.isPrefixOf f.data),
       .ok none (some path))
    else (fs, .ok none (some path))

instance : DecidableEq (Except Unit String) := fun a b =>
  match a, b with
  | .ok x, .ok y =>
    if h : x = y then isTrue (by rw [h])
    else isFalse (by intro hc; cases hc; exact h rfl)
  | .ok _, .error _ => isFalse (by intro h; cases h)
  | .error _, .ok _ => isFalse (by intro h; cases h)
  | .error x, .error y =>
    if h : x = y then isTrue (by rw [h])
    else isFalse (by intro hc; cases hc; exact h rfl)

/-!  Basic facts about the filesystem primitives. -/

theorem fsLookup_fsWrite_self {κ : Type} [DecidableEq κ] (k : κ)
    (v : FileContent) (dir : List (κ × FileContent)) :
    fsLookup k (fsWrite k v dir) = some v := by
  simp [fsLookup, fsWrite, List.find?]

theorem fsLookup_fsUnlink_self {κ : Type} [DecidableEq κ] (k : κ)
    (dir : List (κ × FileContent)) :
    fsLookup k (fsUnlink k dir) = none := by
  induction dir with
  | nil => rfl
  | cons e t ih =>
    by_cases h : e.1 = k
    · simpa [fsUnlink, h] using ih
    · simpa [fsUnlink, fsLookup, List.find?, h] using ih

theorem fsLookup_isSome_of_mem {κ : Type} [DecidableEq κ] {k : κ}
    {v : FileContent} {dir : List (κ × FileContent)}
    (h : (k, v) ∈ dir) : (fsLookup k dir).isSome := by
  induction dir with
  | nil => cases h
  | cons e t ih =>
    by_cases he : e.1 = k
    · simp [fsLookup, List.find?, he]
    · rcases List.mem_cons.mp h with h1 | h1
      · cases h1; exact absurd rfl he
      · simpa [fsLookup, List.find?, he] using ih h1

/-- C8 — counterexample: a payload that itself carries `retry_count: 5` is
written to `pending/` with `retry_count` still 5, not the claimed 0:
`create_job` runs `job["retry_count"] = job.get("retry_count", 0)`, which
preserves a caller-supplied value. -/
theorem c8_counterexample_retry_preserved :
    fsLookup "u1"
        ((create_job "u1" "t1" { retry_count := some 5 } {}).1.pending)
      = some (.valid { job_id := some "u1", created_at := some "t1",
                       retry_count := some 5 }) ∧
    ¬ fsLookup "u1"
        ((create_job "u1" "t1" { retry_count := some 5 } {}).1.pending)
      = some (.valid { job_id := some "u1", created_at := some "t1",
                       retry_count := some 0 }) := by
  decide

/-- C8 (amended) — enqueue postcondition: `create_job` uses the fresh UUID
as `job_id` when the caller supplied none, stamps `created_at = now`,
defaults `retry_count` to 0 only when the caller did not supply one
(otherwise the caller's value is preserved), writes the merged document to
`pending/{job_id}.json`, reports the job id with status `pending`, and
touches no other directory. -/
theorem c8_enqueue_postcondition (fresh now : String) (job : JobDoc)
    (st : QState) :
    (create_job fresh now job st).2.success = true ∧
    (create_job fresh now job st).2.status = "pending" ∧
    (create_job fresh now job st).2.job_id = job.job_id.getD fresh ∧
    (job.job_id = none → (create_job fresh now job st).2.job_id = fresh) ∧
    fsLookup (job.job_id.getD fresh) (create_job fresh now job st).1.pending
      = some (.valid { job with
          job_id := some (job.job_id.getD fresh)
          created_at := some now
          retry_count := some (job.retry_count.getD 0) }) ∧
    (job.retry_count = none →
      fsLookup (job.job_id.getD fresh) (create_job fresh now job st).1.pending
        = some (.valid { job with
            job_id := some (job.job_id.getD fresh)
            created_at := some now
            retry_count := some 0 })) ∧
    (create_job fresh now job st).1.processing = st.processing ∧
    (create_job fresh now job st).1.completed = st.completed ∧
    (create_job fresh now job st).1.failed = st.failed := by
  refine ⟨rfl, rfl, rfl, ?_, ?_, ?_, rfl, rfl, rfl⟩
  · intro h; simp [create_job, h]
  · simp [create_job, fsLookup_fsWrite_self]
  · intro h; simp [create_job, h, fsLookup_fsWrite_self]

theorem c8_enqueue_postcondition_witness :
    (create_job "u1" "t1" {} {}).2.job_id = "u1" ∧
    fsLookup "u1" (create_job "u1" "t1" {} {}).1.pending
      = some (.valid { job_id := some "u1", created_at := some "t1",
                       retry_count := some 0 }) := by
  have h := c8_enqueue_postcondition "u1" "t1" {} {}
  exact ⟨h.2.2.2.1 rfl, by simpa using h.2.2.2.2.2.1 rfl⟩

/-- C6 — complete succeeds only for the `(worker_id, job_id)` pair that
owns the processing file; when `processing/{worker_id}_{job_id}.json` is
absent it fails and leaves every directory unchanged; in particular a
second `complete` after the first has removed the processing file returns
failure with the whole state (hence the `completed/` record written by the
first call) untouched. -/
theorem c6_complete_ownership (wid jid : String) (link link2 : Option String)
    (now now2 : String) (st : QState) :
    ((complete_job wid jid link now st).2 = true →
      (fsLookup (wid, jid) st.processing).isSome) ∧
    (fsLookup (wid, jid) st.processing = none →
      complete_job wid jid link now st = (st, false)) ∧
    (∀ d, fsLookup (wid, jid) st.processing = some (.valid d) →
      (complete_job wid jid link now st).2 = true ∧
      complete_job wid jid link2 now2 (complete_job wid jid link now st).1
        = ((complete_job wid jid link now st).1, false)) := by
  refine ⟨?_, ?_, ?_⟩
  · intro h
    cases hl : fsLookup (wid, jid) st.processing with
    | none => simp [complete_job, hl] at h
    | some v => simp
  · intro h; simp [complete_job, h]
  · intro d h
    have hproc : (complete_job wid jid link now st).1.processing
        = fsUnlink (wid, jid) st.processing := by
      simp [complete_job, h]
    have h2 : fsLookup (wid, jid)
        (complete_job wid jid link now st).1.processing = none := by
      rw [hproc]; exact fsLookup_fsUnlink_self _ _
    refine ⟨by simp [complete_job, h], ?_⟩
    generalize hst : (complete_job wid jid link now st).1 = st1 at h2 ⊢
    simp [complete_job, h2]

theorem c6_complete_ownership_witness :
    fsLookup ("w1", "j1")
        (QState.mk [] [(("w1", "j1"), .valid {})] [] []).processing
      = some (.valid {}) ∧
    (complete_job "w1" "j1" none "t"
        (QState.mk [] [(("w1", "j1"), .valid {})] [] [])).2 = true ∧
    complete_job "w1" "j1" none "t2"
        (complete_job "w1" "j1" none "t"
          (QState.mk [] [(("w1", "j1"), .valid {})] [] [])).1
      = ((complete_job "w1" "j1" none "t"
          (QState.mk [] [(("w1", "j1"), .valid {})] [] [])).1, false) := by
  have h := (c6_complete_ownership "w1" "j1" none none "t" "t2"
    (QState.mk [] [(("w1", "j1"), .valid {})] [] [])).2.2 {} (by decide)
  exact ⟨by decide, h.1, h.2⟩

/-- Initial store for the three-failures scenario: one enqueued job. -/
def c3Start : QState :=
  { pending := [("j1", .valid { job_id := some "j1", status := some "pending",
                                priority := some 0, created_at := some "t0",
                                retry_count := some 0 })] }

/-- `claim`/`fail` three times in sequence on the same job, re-claimed each
time by worker `w1` with error messages `e1`, `e2`, `e3`. -/
def c3AfterThreeFails : QState :=
  let s1 := (claim_job "w1" "t1" c3Start).1
  let s2 := (fail_job "w1" "j1" "e1" "t2" s1).1
  let s3 := (claim_job "w1" "t3" s2).1
  let s4 := (fail_job "w1" "j1" "e2" "t4" s3).1
  let s5 := (claim_job "w1" "t5" s4).1
  (fail_job "w1" "j1" "e3" "t6" s5).1

/-- C3 — fail/retry semantics.  For every job present at
`processing/{worker_id}_{job_id}.json`, `fail_job` increments
`retry_count` by exactly 1; if the incremented count is `>= 3` the job
moves to `failed/{job_id}.json` with `status=failed`, otherwise
`worker_id`/`processing_started_at` are stripped and it moves back to
`pending/{job_id}.json` with `status=pending`.  Consequently a job failed
three times in sequence ends in `failed/` with `retry_count = 3` and the
last error message. -/
theorem c3_fail_retry_semantics :
    (∀ st wid jid msg now d,
      fsLookup (wid, jid) st.processing = some (.valid d) →
      (d.retry_count.getD 0 + 1 ≥ 3 →
        fail_job wid jid msg now st =
          ({ st with
              failed := fsWrite jid (.valid { d with
                status := some "failed"
                last_failed_at := some now
                retry_count := some (d.retry_count.getD 0 + 1)
                error_message := some msg }) st.failed
              processing := fsUnlink (wid, jid) st.processing },
           some ("failed", d.retry_count.getD 0 + 1))) ∧
      (d.retry_count.getD 0 + 1 < 3 →
        fail_job wid jid msg now st =
          ({ st with
              pending := fsWrite jid (.valid { d with
                status := some "pending"
                last_failed_at := some now
                retry_count := some (d.retry_count.getD 0 + 1)
                worker_id := none
                processing_started_at := none
                error_message := some msg }) st.pending
              processing := fsUnlink (wid, jid) st.processing },
           some ("pending", d.retry_count.getD 0 + 1)))) ∧
    (fsLookup "j1" c3AfterThreeFails.failed
      = some (.valid { job_id := some "j1", status := some "failed",
                       priority := some 0, created_at := some "t0",
                       processing_started_at := some "t5",
                       last_failed_at := some "t6",
                       retry_count := some 3, worker_id := some "w1",
                       error_message := some "e3" }) ∧
      c3AfterThreeFails.pending = [] ∧
      c3AfterThreeFails.processing = []) := by
  constructor
  · intro st wid jid msg now d h
    constructor
    · intro hrc
      simp only [fail_job, h]
      rw [if_pos hrc]
    · intro hrc
      simp only [fail_job, h]
      rw [if_neg (by omega)]
  · exact ⟨by decide, by decide, by decide⟩

theorem c3_fail_retry_semantics_witness :
    fail_job "w1" "j1" "boom" "t"
        (QState.mk [] [(("w1", "j1"),
          .valid { job_id := some "j1", retry_count := some 2 })] [] [])
      = (QState.mk [] []
          [] [("j1", .valid { job_id := some "j1", status := some "failed",
                              last_failed_at := some "t",
                              retry_count := some 3,
                              error_message := some "boom" })],
         some ("failed", 3)) := by
  have h := (c3_fail_retry_semantics.1
    (QState.mk [] [(("w1", "j1"),
      .valid { job_id := some "j1", retry_count := some 2 })] [] [])
    "w1" "j1" "boom" "t" { job_id := some "j1", retry_count := some 2 }
    (by decide)).1 (by decide)
  simpa [fsWrite, fsUnlink] using h

theorem jobLE_refl (a : String × JobDoc) : jobLE a a :=
  Or.inr ⟨rfl, le_refl _⟩

instance : IsTrans (String × JobDoc) jobLE := by
  constructor
  intro a b c hab hbc
  rcases hab with h1 | ⟨h1, h1s⟩ <;> rcases hbc with h2 | ⟨h2, h2s⟩
  · exact Or.inl (lt_trans h2 h1)
  · exact Or.inl (h2 ▸ h1)
  · exact Or.inl (h1 ▸ h2)
  · exact Or.inr ⟨h1.trans h2, le_trans h1s h2s⟩

instance : IsTotal (String × JobDoc) jobLE := by
  constructor
  intro a b
  rcases lt_trichotomy (a.2.priority.getD 0) (b.2.priority.getD 0) with h | h | h
  · exact Or.inr (Or.inl h)
  · rcases le_total (a.2.created_at.getD "").data (b.2.created_at.getD "").data
      with hs | hs
    · exact Or.inl (Or.inr ⟨h, hs⟩)
    · exact Or.inr (Or.inr ⟨h.symm, hs⟩)
  · exact Or.inl (Or.inl h)

/-- The parse step of the claim scan (file_server.py:512-518). -/
theorem mem_parsedJobs_iff (st : QState) (k : String) (d : JobDoc) :
    (k, d) ∈ st.pending.filterMap (fun e =>
        match e.2 with
        | FileContent.valid d => some (e.1, d)
        | FileContent.corrupt => none) ↔
      (k, FileContent.valid d) ∈ st.pending := by
  rw [List.mem_filterMap]
  constructor
  · rintro ⟨e, he, hf⟩
    match e, hf with
    | (k', FileContent.valid d'), hf =>
      simp only [Option.some.injEq, Prod.mk.injEq] at hf
      obtain ⟨h1, h2⟩ := hf
      rw [← h1, ← h2]; exact he
  · intro hmem
    exact ⟨(k, .valid d), hmem, rfl⟩

/-- When the pending set contains at least one parseable job file,
`claim_job` claims (and returns, with the worker fields added) a valid
pending job that is maximal for the order priority-descending /
`created_at`-ascending among all valid pending jobs. -/
theorem claim_job_spec (wid now : String) (st : QState)
    (h : ∃ e ∈ st.pending, e.2.isValid = true) :
    ∃ k d, (k, FileContent.valid d) ∈ st.pending ∧
      (claim_job wid now st).2 = some (withWorker wid now d) ∧
      ∀ k' d', (k', FileContent.valid d') ∈ st.pending → jobLE (k, d) (k', d') := by
  classical
  obtain ⟨e, he, hv⟩ := h
  obtain ⟨k0, c0⟩ := e
  cases c0 with
  | corrupt => simp [FileContent.isValid] at hv
  | valid d0 =>
  set jobs := st.pending.filterMap (fun e =>
      match e.2 with
      | FileContent.valid d => some (e.1, d)
      | FileContent.corrupt => none) with hjobs
  have hj0 : (k0, d0) ∈ jobs := (mem_parsedJobs_iff st k0 d0).mpr he
  set sorted := List.insertionSort jobLE jobs with hsorted
  have hperm : sorted.Perm jobs := List.perm_insertionSort jobLE jobs
  have hsne : sorted ≠ [] := by
    intro hnil
    rw [hnil] at hperm
    rw [← hperm.nil_eq] at hj0
    cases hj0
  obtain ⟨a, tl, hcons⟩ := List.exists_cons_of_ne_nil hsne
  have hamem : (a.1, FileContent.valid a.2) ∈ st.pending := by
    have ha : a ∈ jobs := hperm.subset (by rw [hcons]; exact List.mem_cons_self a tl)
    exact (mem_parsedJobs_iff st a.1 a.2).mp ha
  have hlook : (fsLookup a.1 st.pending).isSome :=
    fsLookup_isSome_of_mem hamem
  have hne : st.pending ≠ [] := List.ne_nil_of_mem he
  have hcj : claim_job wid now st = claimLoop wid now st sorted := by
    simp only [claim_job, if_neg hne]
  have hloop : (claimLoop wid now st sorted).2 = some (withWorker wid now a.2) := by
    rw [hcons]
    obtain ⟨ka, da⟩ := a
    simp only [claimLoop]
    rw [if_pos hlook]
  have hsortedrel : List.Sorted jobLE sorted :=
    List.sorted_insertionSort jobLE jobs
  refine ⟨a.1, a.2, hamem, by rw [hcj]; exact hloop, ?_⟩
  intro k' d' hmem'
  have hj' : (k', d') ∈ jobs := (mem_parsedJobs_iff st k' d').mpr hmem'
  have hs' : (k', d') ∈ sorted := hperm.mem_iff.mpr hj'
  rw [hcons] at hs'
  rcases List.mem_cons.mp hs' with heq | htl
  · rw [heq]; exact jobLE_refl _
  · rw [hcons] at hsortedrel
    exact List.rel_of_sorted_cons hsortedrel _ htl

/-- Jobs A, B, C enqueued in this order with priorities 0, 5, 0. -/
def c4Start : QState :=
  { pending :=
      [("A", .valid { job_id := some "A", priority := some 0,
                      created_at := some "t1" }),
       ("B", .valid { job_id := some "B", priority := some 5,
                      created_at := some "t2" }),
       ("C", .valid { job_id := some "C", priority := some 0,
                      created_at := some "t3" })] }

/-- Three successive uncontended claims against `c4Start`. -/
def c4Claims : Option JobDoc × Option JobDoc × Option JobDoc :=
  let r1 := claim_job "w1" "u1" c4Start
  let r2 := claim_job "w1" "u2" r1.1
  let r3 := claim_job "w1" "u3" r2.1
  (r1.2, r2.2, r3.2)

/-- C4 — claim ordering: a single uncontended claim returns a pending job
maximal under priority-descending then `created_at`-ascending; for
priorities `[0,5,0]` enqueued as A, B, C, successive claims return B,
then A, then C. -/
theorem c4_claim_ordering (wid now : String) (st : QState)
    (h : ∃ e ∈ st.pending, e.2.isValid = true) :
    (∃ k d, (k, FileContent.valid d) ∈ st.pending ∧
      (claim_job wid now st).2 = some (withWorker wid now d) ∧
      ∀ k' d', (k', FileContent.valid d') ∈ st.pending → jobLE (k, d) (k', d')) ∧
    ((c4Claims.1.map JobDoc.job_id, c4Claims.2.1.map JobDoc.job_id,
        c4Claims.2.2.map JobDoc.job_id)
      = (some (some "B"), some (some "A"), some (some "C"))) :=
  ⟨claim_job_spec wid now st h, by decide⟩

theorem c4_claim_ordering_witness :
    (∃ e ∈ c4Start.pending, e.2.isValid = true) ∧
    (∃ k d, (k, FileContent.valid d) ∈ c4Start.pending ∧
      (claim_job "w1" "u1" c4Start).2 = some (withWorker "w1" "u1" d) ∧
      ∀ k' d', (k', FileContent.valid d') ∈ c4Start.pending →
        jobLE (k, d) (k', d')) :=
  ⟨by decide, (c4_claim_ordering "w1" "u1" c4Start (by decide)).1⟩

/-- C7 — corrupt-file resilience: whenever `pending/` holds at least one
parseable job file, `claim_job` returns a job (never `none`), and the
returned job is a valid pending job with the worker fields added —
unparseable files are skipped and never block the claim. -/
theorem c7_corrupt_resilience (wid now : String) (st : QState)
    (h : ∃ e ∈ st.pending, e.2.isValid = true) :
    (claim_job wid now st).2.isSome = true ∧
    ∃ k d, (k, FileContent.valid d) ∈ st.pending ∧
      (claim_job wid now st).2 = some (withWorker wid now d) := by
  obtain ⟨k, d, hmem, hres, _⟩ := claim_job_spec wid now st h
  exact ⟨by rw [hres]; rfl, k, d, hmem, hres⟩

theorem c7_corrupt_resilience_witness :
    (∃ e ∈ (QState.mk [("bad", .corrupt),
        ("good", .valid { job_id := some "good" })] [] [] []).pending,
      e.2.isValid = true) ∧
    (claim_job "w1" "t" (QState.mk [("bad", .corrupt),
        ("good", .valid { job_id := some "good" })] [] [] [])).2.isSome
      = true :=
  ⟨by decide,
   (c7_corrupt_resilience "w1" "t" (QState.mk [("bad", .corrupt),
      ("good", .valid { job_id := some "good" })] [] [] []) (by decide)).1⟩

theorem fsLookup_mem {κ : Type} [DecidableEq κ] {k : κ} {v : FileContent}
    {dir : List (κ × FileContent)} (h : fsLookup k dir = some v) :
    (k, v) ∈ dir := by
  induction dir with
  | nil => simp [fsLookup] at h
  | cons e t ih =>
    by_cases he : e.1 = k
    · have hf : List.find? (fun e => decide (e.1 = k)) (e :: t) = some e :=
        List.find?_cons_of_pos _ (by simpa using he)
      simp only [fsLookup, hf] at h
      injection h with h2
      subst h2
      exact List.mem_cons.mpr (Or.inl (by rw [← he]))
    · have hf := List.find?_cons_of_neg (p := fun e => decide (e.1 = k)) t
        (by simpa using he)
      simp only [fsLookup, hf] at h
      exact List.mem_cons_of_mem _ (ih (by simp only [fsLookup]; exact h))

theorem any_fsWrite {κ : Type} [DecidableEq κ] (Q : κ → Bool) (k : κ)
    (v : FileContent) (dir : List (κ × FileContent)) :
    ((fsWrite k v dir).any fun e => Q e.1) = (Q k || dir.any fun e => Q e.1) := by
  simp only [fsWrite, List.any_cons, List.any_filter]
  cases hq : Q k with
  | true => simp
  | false =>
    simp only [Bool.false_or]
    congr 1
    funext a
    by_cases ha : a.1 = k
    · simp [ha, hq]
    · simp [ha]

theorem any_fsUnlink_self {κ : Type} [DecidableEq κ] (k : κ)
    (dir : List (κ × FileContent)) :
    ((fsUnlink k dir).any fun e => e.1 = k) = false := by
  simp only [fsUnlink, List.any_filter]
  have hfun : (fun (a : κ × FileContent) =>
      (decide (a.1 ≠ k) && decide (a.1 = k))) = fun _ => false := by
    funext a
    by_cases h : a.1 = k <;> simp [h]
  rw [hfun]
  simp

theorem any_fsUnlink_of_ne {κ : Type} [DecidableEq κ] (Q : κ → Bool) (k : κ)
    (dir : List (κ × FileContent)) (h : Q k = false) :
    ((fsUnlink k dir).any fun e => Q e.1) = (dir.any fun e => Q e.1) := by
  simp only [fsUnlink, List.any_filter]
  congr 1
  funext a
  by_cases ha : a.1 = k
  · simp [ha, h]
  · simp [ha]

theorem any_fsUnlink_uniq {dir : List ((String × String) × FileContent)}
    (wid k : String)
    (h : ∀ e ∈ dir, e.1.2 = k → e.1 = (wid, k)) :
    ((fsUnlink (wid, k) dir).any fun e => e.1.2 = k) = false := by
  simp only [fsUnlink, List.any_filter]
  rw [List.any_eq_false]
  intro a ha
  by_cases hk : a.1.2 = k
  · simp [h a ha hk]
  · simp [hk]

/-- C2 — counterexample: with job `j1` held in `processing/` by worker
`w1`, after the first of the two filesystem steps of `complete_job` (the
write of `completed/{job_id}.json`, which precedes the unlink of the
processing file) the job's file exists in two directories at once — the
claimed "never in two directories at any observable instant" fails. -/
theorem c2_counterexample_two_locations :
    locCount (applyActs
        (QState.mk [] [(("w1", "j1"), .valid { job_id := some "j1" })] [] [])
        ((completeTrace "w1" "j1" none "t1"
          (QState.mk [] [(("w1", "j1"), .valid { job_id := some "j1" })] [] [])).take 1))
      "j1" = 2 ∧
    ¬ locCount (applyActs
        (QState.mk [] [(("w1", "j1"), .valid { job_id := some "j1" })] [] [])
        ((completeTrace "w1" "j1" none "t1"
          (QState.mk [] [(("w1", "j1"), .valid { job_id := some "j1" })] [] [])).take 1))
      "j1" = 1 := by
  decide

theorem inPending_write (st : QState) (k : String) (v : FileContent)
    (J : String) :
    inPending { st with pending := fsWrite k v st.pending } J
      = (decide (k = J) || inPending st J) :=
  any_fsWrite (fun x => decide (x = J)) k v st.pending

theorem inCompleted_write (st : QState) (k : String) (v : FileContent)
    (J : String) :
    inCompleted { st with completed := fsWrite k v st.completed } J
      = (decide (k = J) || inCompleted st J) :=
  any_fsWrite (fun x => decide (x = J)) k v st.completed

theorem inFailed_write (st : QState) (k : String) (v : FileContent)
    (J : String) :
    inFailed { st with failed := fsWrite k v st.failed } J
      = (decide (k = J) || inFailed st J) :=
  any_fsWrite (fun x => decide (x = J)) k v st.failed

theorem inProcessing_write (st : QState) (w k : String) (v : FileContent)
    (J : String) :
    inProcessing { st with processing := fsWrite (w, k) v st.processing } J
      = (decide (k = J) || inProcessing st J) :=
  any_fsWrite (fun p : String × String => decide (p.2 = J)) (w, k) v
    st.processing

theorem inPending_unlink_self (st : QState) (k : String) :
    inPending { st with pending := fsUnlink k st.pending } k = false :=
  any_fsUnlink_self k st.pending

theorem inProcessing_unlink_uniq (st : QState) (wid k : String)
    (h : ∀ e ∈ st.processing, e.1.2 = k → e.1 = (wid, k)) :
    inProcessing { st with processing := fsUnlink (wid, k) st.processing } k
      = false :=
  any_fsUnlink_uniq wid k h

theorem inProcessing_of_lookup {st : QState} {wid jid : String}
    {v : FileContent} (h : fsLookup (wid, jid) st.processing = some v) :
    inProcessing st jid = true := by
  have hm := fsLookup_mem h
  simp only [inProcessing, List.any_eq_true]
  exact ⟨((wid, jid), v), hm, by simp⟩

theorem countBools_zero : ∀ a b c d : Bool,
    (if a then 1 else 0) + (if b then 1 else 0) + (if c then 1 else 0) +
      (if d then 1 else 0) = 0 →
    a = false ∧ b = false ∧ c = false ∧ d = false := by
  decide

theorem keyAny_fsWrite {κ : Type} [DecidableEq κ] (k J : κ) (v : FileContent)
    (dir : List (κ × FileContent)) :
    ((fsWrite k v dir).any fun e => decide (e.1 = J))
      = (decide (k = J) || dir.any fun e => decide (e.1 = J)) :=
  any_fsWrite (fun x => decide (x = J)) k v dir

theorem procAny_fsWrite (w k J : String) (v : FileContent)
    (dir : List ((String × String) × FileContent)) :
    ((fsWrite (w, k) v dir).any fun e => decide (e.1.2 = J))
      = (decide (k = J) || dir.any fun e => decide (e.1.2 = J)) :=
  any_fsWrite (fun p : String × String => decide (p.2 = J)) (w, k) v dir

theorem countBools_one : ∀ a b c d : Bool,
    (if a then 1 else 0) + (if b then 1 else 0) + (if c then 1 else 0) +
      (if d then 1 else 0) = 1 →
    a = true → b = false ∧ c = false ∧ d = false := by
  decide

/-- C2 (amended) — no-loss with a transient double: a job's file never
disappears from all four directories, and at every operation boundary it
sits in exactly one of them; the claim rename keeps it in exactly one
directory at every instant, but `complete_job` and `fail_job` write the
destination file before unlinking the processing file, so each has one
observable intermediate instant at which the job's file exists in two
directories at once. -/
theorem c2_location_invariant :
    (∀ fresh now job st,
      locCount st (job.job_id.getD fresh) = 0 →
      locCount (applyActs st (createTrace fresh now job))
        (job.job_id.getD fresh) = 1) ∧
    (∀ wid now k d st,
      fsLookup k st.pending = some (FileContent.valid d) →
      locCount st k = 1 →
      ∀ i, i ≤ (claimTrace wid now k d).length →
        locCount (applyActs st ((claimTrace wid now k d).take i)) k = 1) ∧
    (∀ wid jid link now st d,
      fsLookup (wid, jid) st.processing = some (FileContent.valid d) →
      inPending st jid = false → inCompleted st jid = false →
      inFailed st jid = false →
      (∀ e ∈ st.processing, e.1.2 = jid → e.1 = (wid, jid)) →
      locCount st jid = 1 ∧
      locCount (applyActs st ((completeTrace wid jid link now st).take 1))
        jid = 2 ∧
      locCount (applyActs st (completeTrace wid jid link now st)) jid = 1) ∧
    (∀ wid jid msg now st d,
      fsLookup (wid, jid) st.processing = some (FileContent.valid d) →
      inPending st jid = false → inCompleted st jid = false →
      inFailed st jid = false →
      (∀ e ∈ st.processing, e.1.2 = jid → e.1 = (wid, jid)) →
      locCount st jid = 1 ∧
      locCount (applyActs st ((failTrace wid jid msg now st).take 1)) jid = 2 ∧
      locCount (applyActs st (failTrace wid jid msg now st)) jid = 1) := by
  refine ⟨?_, ?_, ?_, ?_⟩
  · -- enqueue
    intro fresh now job st h
    have h' : (if inPending st (job.job_id.getD fresh) then 1 else 0) +
        (if inProcessing st (job.job_id.getD fresh) then 1 else 0) +
        (if inCompleted st (job.job_id.getD fresh) then 1 else 0) +
        (if inFailed st (job.job_id.getD fresh) then 1 else 0) = 0 := h
    obtain ⟨hP, hPr, hC, hF⟩ := countBools_zero _ _ _ _ h'
    simp only [inPending, inProcessing, inCompleted, inFailed] at hP hPr hC hF
    simp only [createTrace, applyActs, List.foldl, applyAct, locCount,
      inPending, inProcessing, inCompleted, inFailed]
    simp [keyAny_fsWrite, hP, hPr, hC, hF]
  · -- claim
    intro wid now k d st hlook h i hi
    have hPt : inPending st k = true := by
      have hm := fsLookup_mem hlook
      simp only [inPending, List.any_eq_true]
      exact ⟨(k, FileContent.valid d), hm, by simp⟩
    have h' : (if inPending st k then 1 else 0) +
        (if inProcessing st k then 1 else 0) +
        (if inCompleted st k then 1 else 0) +
        (if inFailed st k then 1 else 0) = 1 := h
    obtain ⟨hPr, hC, hF⟩ := countBools_one _ _ _ _ h' hPt
    simp only [inPending, inProcessing, inCompleted, inFailed]
      at hPt hPr hC hF
    have hi2 : i ≤ 2 := by simpa [claimTrace] using hi
    interval_cases i
    · simpa [applyActs] using h
    · simp only [claimTrace, List.take, applyActs, List.foldl, applyAct,
        hlook, locCount, inPending, inProcessing, inCompleted, inFailed]
      simp [any_fsUnlink_self, procAny_fsWrite, hC, hF]
    · simp only [claimTrace, List.take, applyActs, List.foldl, applyAct,
        hlook, locCount, inPending, inProcessing, inCompleted, inFailed]
      simp [any_fsUnlink_self, procAny_fsWrite, hC, hF]
  · -- complete
    intro wid jid link now st d hlook hP hC hF huniq
    have hPr : inProcessing st jid = true := inProcessing_of_lookup hlook
    refine ⟨by simp [locCount, hP, hPr, hC, hF], ?_, ?_⟩
    · simp only [completeTrace, hlook, List.take, applyActs, List.foldl,
        applyAct]
      simp only [inPending, inProcessing, inCompleted, inFailed]
        at hP hPr hC hF
      simp only [locCount, inPending, inProcessing, inCompleted, inFailed]
      simp [keyAny_fsWrite, hP, hPr, hF]
    · simp only [completeTrace, hlook, applyActs, List.foldl, applyAct]
      simp only [inPending, inProcessing, inCompleted, inFailed]
        at hP hPr hC hF
      simp only [locCount, inPending, inProcessing, inCompleted, inFailed]
      simp only [any_fsUnlink_uniq wid jid huniq]
      simp [keyAny_fsWrite, hP, hF]
  · -- fail
    intro wid jid msg now st d hlook hP hC hF huniq
    have hPr : inProcessing st jid = true := inProcessing_of_lookup hlook
    refine ⟨by simp [locCount, hP, hPr, hC, hF], ?_, ?_⟩
    · simp only [failTrace, hlook]
      by_cases hrc : d.retry_count.getD 0 + 1 ≥ 3
      · rw [if_pos hrc]
        simp only [List.take, applyActs, List.foldl, applyAct]
        simp only [inPending, inProcessing, inCompleted, inFailed]
          at hP hPr hC hF
        simp only [locCount, inPending, inProcessing, inCompleted, inFailed]
        simp [keyAny_fsWrite, hP, hPr, hC]
      · rw [if_neg hrc]
        simp only [List.take, applyActs, List.foldl, applyAct]
        simp only [inPending, inProcessing, inCompleted, inFailed]
          at hP hPr hC hF
        simp only [locCount, inPending, inProcessing, inCompleted, inFailed]
        simp [keyAny_fsWrite, hPr, hC, hF]
    · simp only [failTrace, hlook]
      by_cases hrc : d.retry_count.getD 0 + 1 ≥ 3
      · rw [if_pos hrc]
        simp only [applyActs, List.foldl, applyAct]
        simp only [inPending, inProcessing, inCompleted, inFailed]
          at hP hPr hC hF
        simp only [locCount, inPending, inProcessing, inCompleted, inFailed]
        simp only [any_fsUnlink_uniq wid jid huniq]
        simp [keyAny_fsWrite, hP, hC]
      · rw [if_neg hrc]
        simp only [applyActs, List.foldl, applyAct]
        simp only [inPending, inProcessing, inCompleted, inFailed]
          at hP hPr hC hF
        simp only [locCount, inPending, inProcessing, inCompleted, inFailed]
        simp only [any_fsUnlink_uniq wid jid huniq]
        simp [keyAny_fsWrite, hC, hF]

theorem c2_location_invariant_witness :
    locCount (QState.mk [] [(("w1", "j1"),
        .valid { job_id := some "j1" })] [] []) "j1" = 1 ∧
    locCount (applyActs (QState.mk [] [(("w1", "j1"),
        .valid { job_id := some "j1" })] [] [])
      ((completeTrace "w1" "j1" none "t1" (QState.mk [] [(("w1", "j1"),
        .valid { job_id := some "j1" })] [] [])).take 1)) "j1" = 2 ∧
    locCount (applyActs (QState.mk [] [(("w1", "j1"),
        .valid { job_id := some "j1" })] [] [])
      (completeTrace "w1" "j1" none "t1" (QState.mk [] [(("w1", "j1"),
        .valid { job_id := some "j1" })] [] []))) "j1" = 1 :=
  c2_location_invariant.2.2.1 "w1" "j1" none "t1"
    (QState.mk [] [(("w1", "j1"), .valid { job_id := some "j1" })] [] [])
    { job_id := some "j1" } (by decide) (by decide) (by decide) (by decide)
    (by decide)

/-- A terminally failed job sitting in `failed/` with `retry_count = 3`. -/
def c9Failed : QState :=
  QState.mk [] [] []
    [("j1", .valid { job_id := some "j1", status := some "failed",
                     retry_count := some 3, error_message := some "boom" })]

/-- C9 — counterexample: the engine's own `update_job_status` endpoint
moves a terminally failed job (`retry_count = 3`, sitting in `failed/`)
back to `pending/` and resets its `retry_count` to 0 — the job is revived
and its `retry_count` decreases. -/
theorem c9_counterexample_revived :
    inFailed (update_job_status "j1" "pending" "t9" c9Failed).1 "j1" = false ∧
    fsLookup "j1" (update_job_status "j1" "pending" "t9" c9Failed).1.pending
      = some (.valid { job_id := some "j1", status := some "pending",
                       status_updated_at := some "t9",
                       retry_count := some 0 }) ∧
    (update_job_status "j1" "pending" "t9" c9Failed).2
      = some ("failed", "pending") := by
  decide

theorem claimLoop_preserves (wid now : String) (st : QState)
    (l : List (String × JobDoc)) :
    (claimLoop wid now st l).1.completed = st.completed ∧
    (claimLoop wid now st l).1.failed = st.failed := by
  induction l with
  | nil => exact ⟨rfl, rfl⟩
  | cons a t ih =>
    obtain ⟨k, d⟩ := a
    simp only [claimLoop]
    by_cases h : (fsLookup k st.pending).isSome
    · rw [if_pos h]
      exact ⟨rfl, rfl⟩
    · rw [if_neg h]
      exact ih

/-- C9 (amended) — `retry_count` never decreases and `failed/` is stable
across the worker-facing operations `claim`, `complete` and `fail`: claim
and complete never touch `failed/`, `fail` only adds to it, claim and
complete carry the job's `retry_count` over unchanged, and `fail` sets it
to exactly one more than its previous value.  The explicitly invoked
status-override endpoint (`update_job_status`) is excluded: with
`new_status="pending"` it moves a job out of `failed/` and resets its
`retry_count` to 0 (see the counterexample). -/
theorem c9_retry_monotone_failed_terminal :
    (∀ wid now st, (claim_job wid now st).1.completed = st.completed ∧
      (claim_job wid now st).1.failed = st.failed) ∧
    (∀ wid jid link now st,
      (complete_job wid jid link now st).1.failed = st.failed ∧
      (complete_job wid jid link now st).1.pending = st.pending) ∧
    (∀ wid jid msg now st k, inFailed st k = true →
      inFailed (fail_job wid jid msg now st).1 k = true) ∧
    (∀ wid now st, (∃ e ∈ st.pending, e.2.isValid = true) →
      ∃ k d, (k, FileContent.valid d) ∈ st.pending ∧
        (claim_job wid now st).2 = some (withWorker wid now d) ∧
        (withWorker wid now d).retry_count = d.retry_count) ∧
    (∀ wid jid link now st d,
      fsLookup (wid, jid) st.processing = some (FileContent.valid d) →
      ∃ d1, fsLookup jid (complete_job wid jid link now st).1.completed
          = some (FileContent.valid d1) ∧ d1.retry_count = d.retry_count) ∧
    (∀ wid jid msg now st d,
      fsLookup (wid, jid) st.processing = some (FileContent.valid d) →
      ∃ s, (fail_job wid jid msg now st).2
          = some (s, d.retry_count.getD 0 + 1) ∧
        d.retry_count.getD 0 < d.retry_count.getD 0 + 1) := by
  refine ⟨?_, ?_, ?_, ?_, ?_, ?_⟩
  · intro wid now st
    by_cases hp : st.pending = []
    · simp [claim_job, hp]
    · simp only [claim_job, if_neg hp]
      exact claimLoop_preserves wid now st _
  · intro wid jid link now st
    cases hl : fsLookup (wid, jid) st.processing with
    | none => simp [complete_job, hl]
    | some v =>
      cases v with
      | corrupt => simp [complete_job, hl]
      | valid d => simp [complete_job, hl]
  · intro wid jid msg now st k hk
    cases hl : fsLookup (wid, jid) st.processing with
    | none => simpa [fail_job, hl] using hk
    | some v =>
      cases v with
      | corrupt => simpa [fail_job, hl] using hk
      | valid d =>
        by_cases hrc : d.retry_count.getD 0 + 1 ≥ 3
        · simp only [fail_job, hl]
          rw [if_pos hrc]
          simp only [inFailed] at hk ⊢
          simp [keyAny_fsWrite, hk]
        · simp only [fail_job, hl]
          rw [if_neg hrc]
          exact hk
  · intro wid now st h
    obtain ⟨k, d, hmem, hres, -⟩ := claim_job_spec wid now st h
    exact ⟨k, d, hmem, hres, rfl⟩
  · intro wid jid link now st d hl
    simp only [complete_job, hl]
    exact ⟨_, fsLookup_fsWrite_self _ _ _, rfl⟩
  · intro wid jid msg now st d hl
    by_cases hrc : d.retry_count.getD 0 + 1 ≥ 3
    · refine ⟨"failed", ?_, by omega⟩
      simp only [fail_job, hl]
      rw [if_pos hrc]
    · refine ⟨"pending", ?_, by omega⟩
      simp only [fail_job, hl]
      rw [if_neg hrc]

theorem c9_retry_monotone_failed_terminal_witness :
    inFailed (fail_job "w2" "j2" "e" "t" c9Failed).1 "j1" = true ∧
    (∃ s, (fail_job "w1" "j1" "boom" "t"
        (QState.mk [] [(("w1", "j1"),
          .valid { job_id := some "j1", retry_count := some 1 })] [] [])).2
        = some (s, 2) ∧ (1 : Int) < 2) := by
  constructor
  · exact c9_retry_monotone_failed_terminal.2.2.1 "w2" "j2" "e" "t"
      c9Failed "j1" (by decide)
  · have h := c9_retry_monotone_failed_terminal.2.2.2.2.2 "w1" "j1" "boom" "t"
      (QState.mk [] [(("w1", "j1"),
        .valid { job_id := some "j1", retry_count := some 1 })] [] [])
      { job_id := some "j1", retry_count := some 1 } (by decide)
    simpa using h

/-- The invariant of the claim race: no job has been returned twice, and
every returned job is gone from the shared pending set. -/
def raceInv (p : List String) (ws : List RWorker) : Prop :=
  (claimedJobs ws).Nodup ∧ ∀ c ∈ claimedJobs ws, c ∉ p

theorem raceStep_pending_subset (p : List String) (ws : List RWorker)
    (i : Nat) : ∀ x ∈ (raceStep p ws i).1, x ∈ p := by
  induction ws generalizing p i with
  | nil => intro x hx; simpa [raceStep] using hx
  | cons w ws ih =>
    intro x hx
    cases i with
    | zero =>
      simp only [raceStep] at hx
      cases hr : w.result with
      | some r => simpa [raceAttempt, hr] using hx
      | none =>
        cases hc : w.cands with
        | nil => simpa [raceAttempt, hr, hc] using hx
        | cons c rest =>
          by_cases hmem : c ∈ p
          · simp only [raceAttempt, hr, hc, if_pos hmem] at hx
            exact List.mem_of_mem_filter hx
          · simpa [raceAttempt, hr, hc, if_neg hmem] using hx
    | succ n =>
      simp only [raceStep] at hx
      exact ih p n x hx

theorem mem_claimed_raceStep (p : List String) (ws : List RWorker) (i : Nat) :
    ∀ x ∈ claimedJobs (raceStep p ws i).2, x ∈ claimedJobs ws ∨ x ∈ p := by
  induction ws generalizing p i with
  | nil => intro x hx; simp only [raceStep] at hx; exact Or.inl hx
  | cons w ws ih =>
    intro x hx
    cases i with
    | zero =>
      simp only [raceStep] at hx
      cases hr : w.result with
      | some r => exact Or.inl (by simpa [raceAttempt, hr] using hx)
      | none =>
        cases hc : w.cands with
        | nil => exact Or.inl (by simpa [raceAttempt, hr, hc] using hx)
        | cons c rest =>
          by_cases hmem : c ∈ p
          · simp only [raceAttempt, hr, hc, if_pos hmem] at hx
            simp only [claimedJobs, List.filterMap_cons] at hx ⊢
            simp only [hr]
            rcases List.mem_cons.mp hx with h1 | h1
            · exact Or.inr (h1 ▸ hmem)
            · exact Or.inl h1
          · simp only [raceAttempt, hr, hc, if_neg hmem] at hx
            simp only [claimedJobs, List.filterMap_cons] at hx ⊢
            simp only [hr]
            exact Or.inl hx
    | succ n =>
      simp only [raceStep] at hx
      simp only [claimedJobs, List.filterMap_cons] at hx ⊢
      cases hr : w.result with
      | some r =>
        simp only [hr] at hx ⊢
        rcases List.mem_cons.mp hx with h1 | h1
        · exact Or.inl (List.mem_cons.mpr (Or.inl h1))
        · rcases ih p n x h1 with h2 | h2
          · exact Or.inl (List.mem_cons.mpr (Or.inr h2))
          · exact Or.inr h2
      | none =>
        simp only [hr] at hx ⊢
        exact ih p n x hx

theorem raceStep_inv (p : List String) (ws : List RWorker) (i : Nat)
    (h : raceInv p ws) : raceInv (raceStep p ws i).1 (raceStep p ws i).2 := by
  induction ws generalizing p i with
  | nil => simpa [raceStep] using h
  | cons w ws ih =>
    obtain ⟨hnd, hdisj⟩ := h
    cases i with
    | zero =>
      simp only [raceStep]
      cases hr : w.result with
      | some r => simpa [raceAttempt, hr] using And.intro hnd hdisj
      | none =>
        cases hc : w.cands with
        | nil => simpa [raceAttempt, hr, hc] using And.intro hnd hdisj
        | cons c rest =>
          have hclaims0 : claimedJobs (w :: ws) = claimedJobs ws := by
            simp [claimedJobs, List.filterMap_cons, hr]
          rw [hclaims0] at hnd hdisj
          by_cases hmem : c ∈ p
          · simp only [raceAttempt, hr, hc, if_pos hmem]
            constructor
            · simp only [claimedJobs, List.filterMap_cons]
              exact List.Nodup.cons (fun hcmem => hdisj c hcmem hmem) hnd
            · intro x hx
              simp only [claimedJobs, List.filterMap_cons] at hx
              rcases List.mem_cons.mp hx with h1 | h1
              · subst h1
                intro hcon
                have hcf := (List.mem_filter.mp hcon).2
                simp at hcf
              · intro hcon
                exact hdisj x h1 (List.mem_of_mem_filter hcon)
          · simp only [raceAttempt, hr, hc, if_neg hmem]
            constructor
            · simpa only [claimedJobs, List.filterMap_cons] using hnd
            · intro x hx
              refine hdisj x ?_
              simpa only [claimedJobs, List.filterMap_cons] using hx
    | succ n =>
      simp only [raceStep]
      have hsub : claimedJobs ws ⊆ claimedJobs (w :: ws) := by
        intro x hx
        simp only [claimedJobs, List.filterMap_cons]
        cases hr : w.result with
        | some r => exact List.mem_cons.mpr (Or.inr hx)
        | none => exact hx
      have hndws : (claimedJobs ws).Nodup := by
        simp only [claimedJobs, List.filterMap_cons] at hnd
        cases hr : w.result with
        | some r => simp only [hr] at hnd; exact hnd.of_cons
        | none => simpa only [hr] using hnd
      obtain ⟨hnd2, hdisj2⟩ := ih p n ⟨hndws, fun c hc => hdisj c (hsub hc)⟩
      constructor
      · simp only [claimedJobs, List.filterMap_cons]
        cases hr : w.result with
        | some r =>
          refine List.Nodup.cons ?_ hnd2
          intro hrmem
          rcases mem_claimed_raceStep p ws n r hrmem with h1 | h1
          · simp only [claimedJobs, List.filterMap_cons, hr] at hnd
            exact (List.nodup_cons.mp hnd).1 h1
          · refine hdisj r ?_ h1
            simp [claimedJobs, List.filterMap_cons, hr]
        | none => exact hnd2
      · intro x hx
        simp only [claimedJobs, List.filterMap_cons] at hx
        cases hr : w.result with
        | some r =>
          simp only [hr] at hx
          rcases List.mem_cons.mp hx with h1 | h1
          · subst h1
            intro hcon
            refine hdisj x ?_ (raceStep_pending_subset p ws n x hcon)
            simp [claimedJobs, List.filterMap_cons, hr]
          · exact hdisj2 x h1
        | none =>
          simp only [hr] at hx
          exact hdisj2 x hx

theorem raceRun_inv (p : List String) (ws : List RWorker)
    (sched : List Nat) (h : raceInv p ws) :
    raceInv (raceRun p ws sched).1 (raceRun p ws sched).2 := by
  induction sched generalizing p ws with
  | nil => simpa [raceRun] using h
  | cons i sched ih =>
    simp only [raceRun]
    exact ih _ _ (raceStep_inv p ws i h)

/-- C1 — mutual exclusion of claim: for any initial shared pending set,
any set of claiming workers (each holding its own candidate snapshot,
moving silently to the next candidate when it loses a rename), and any
interleaving of their rename attempts, no job is returned to two workers:
the multiset of returned jobs has no duplicates. -/
theorem c1_claim_mutual_exclusion (p : List String) (ws : List RWorker)
    (sched : List Nat) (h : ∀ w ∈ ws, w.result = none) :
    (claimedJobs (raceRun p ws sched).2).Nodup := by
  have hempty : claimedJobs ws = [] := by
    induction ws with
    | nil => rfl
    | cons w ws ih =>
      simp only [claimedJobs, List.filterMap_cons,
        h w (List.mem_cons_self w ws)]
      exact ih (fun x hx => h x (List.mem_cons_of_mem _ hx))
  exact (raceRun_inv p ws sched (by rw [raceInv, hempty]; simp)).1

theorem c1_claim_mutual_exclusion_witness :
    (∀ w ∈ [RWorker.mk "w1" ["j1"] none, RWorker.mk "w2" ["j1"] none],
      w.result = none) ∧
    (claimedJobs (raceRun ["j1"]
        [RWorker.mk "w1" ["j1"] none, RWorker.mk "w2" ["j1"] none]
        [0, 1]).2).Nodup ∧
    claimedJobs (raceRun ["j1"]
        [RWorker.mk "w1" ["j1"] none, RWorker.mk "w2" ["j1"] none]
        [0, 1]).2 = ["j1"] :=
  ⟨by decide,
   c1_claim_mutual_exclusion ["j1"]
     [RWorker.mk "w1" ["j1"] none, RWorker.mk "w2" ["j1"] none]
     [0, 1] (by decide),
   by decide⟩

/-- C5 — the failing input: with the default base `/root/tts/data`,
`safe_path` accepts `../data2/secret` and returns the resolved path
`/root/tts/data2/secret`, which escapes the base directory (it is a
sibling directory whose name merely extends the base string) — the
`startswith` check is missing a trailing separator.  Plain ancestor
traversal such as `../../etc/passwd` is rejected with 403 as claimed. -/
theorem c5_safe_path_sibling_escape :
    safe_path "/root/tts/data" "../data2/secret"
      = Except.ok "/root/tts/data2/secret" ∧
    insideBase "/root/tts/data" "/root/tts/data2/secret" = false ∧
    safe_path "/root/tts/data" "../../etc/passwd" = Except.error () := by
  decide

/-- C10 — counterexample: a request path rejected by `safe_path` (for
example `../../x`) has no existing target, yet `DELETE /files/{path}`
answers with HTTP 403, not with `success: true` / "File already
deleted". -/
theorem c10_counterexample_denied :
    (delete_file "/root/tts/data" ([] : List String) "../../x").2
      = DeleteResp.denied ∧
    ∀ m p, DeleteResp.denied ≠ DeleteResp.ok m p :=
  ⟨by decide, fun m p h => by cases h⟩

/-- C10 (amended) — idempotent deletion for sanitized paths: for every
request path that `safe_path` accepts, if the resolved target does not
exist the endpoint answers success with "File already deleted" and leaves
the store unchanged; deleting an existing plain file succeeds, and a
second delete of the same path succeeds again ("File already deleted")
without changing the store.  Paths rejected by `safe_path` get HTTP 403
instead (see the counterexample). -/
theorem c10_delete_idempotent (base : String) (fs : List String)
    (path fp : String)
    (hsp : safe_path base path = Except.ok fp) :
    (fsPathExists fs fp = false →
      delete_file base fs path
        = (fs, .ok (some "File already deleted") none)) ∧
    (fsFileExists fs fp = true →
      (∀ f ∈ fs, ((fp ++ "/").data.isPrefixOf f.data) = false) →
      delete_file base fs path
          = (fs.filter (fun f => f ≠ fp), .ok none (some path)) ∧
        delete_file base (fs.filter (fun f => f ≠ fp)) path
          = (fs.filter (fun f => f ≠ fp),
             .ok (some "File already deleted") none)) := by
  constructor
  · intro h
    simp [delete_file, hsp, h]
  · intro hf hnd
    constructor
    · simp [delete_file, hsp, fsPathExists, hf]
    · have h1 : fsFileExists (fs.filter (fun f => f ≠ fp)) fp = false := by
        rw [fsFileExists, List.any_eq_false]
        intro f hmem
        have := (List.mem_filter.mp hmem).2
        simpa using this
      have h2 : fsDirExists (fs.filter (fun f => f ≠ fp)) fp = false := by
        rw [fsDirExists, List.any_eq_false]
        intro f hmem
        have hpf := hnd f (List.mem_of_mem_filter hmem)
        have hpf2 : ¬ (fp ++ "/").data <+: f.data := by
          rw [← List.isPrefixOf_iff_prefix, hpf]
          exact Bool.false_ne_true
        simpa using hpf2
      simp only [ne_eq, decide_not] at h1 h2
      simp [delete_file, hsp, fsPathExists, h1, h2]

theorem c10_delete_idempotent_witness :
    delete_file "/root/tts/data" ["/root/tts/data/a.txt"] "a.txt"
      = ([], .ok none (some "a.txt")) ∧
    delete_file "/root/tts/data" [] "a.txt"
      = ([], .ok (some "File already deleted") none) := by
  have h := (c10_delete_idempotent "/root/tts/data" ["/root/tts/data/a.txt"]
    "a.txt" "/root/tts/data/a.txt" (by decide)).2 (by decide) (by decide)
  constructor
  · have h1 := h.1
    simpa using h1
  · have h2 := h.2
    simpa using h2
